import Mathlib

/-!
Shallow embedding of the MFEKglif selection/contour-operation core
(src/editor/selection.rs, src/contour_operations/mod.rs, src/tools/select/mod.rs).

Coordinates (f32 in the source) are modelled as exact rationals; the claims
under verification are about structural point bookkeeping and exact translation
deltas, not float rounding.  The editor's active layer is modelled directly as
an outline (list of contours) plus the selection set and the live index pair;
the glyph/layer indirection (`self.glyph.as_ref().unwrap().layers[idx]`) is
collapsed since every operation here touches exactly the active layer.

The contour-operation payloads (`ContourOperations` parameter structs) and the
operation notifications `sub`/`append` live in glifparser / other modules that
are not part of this excerpt; the editor functions are therefore parametrized
over an arbitrary operation type `Op` together with the two notification
functions, exactly in the places the source calls them.
-/

namespace Glif

/-- Point type tag, from glifparser's PointType as used by the source
(`PointType::Move` marks a sub-path start). -/
inductive PointType
  | Undefined
  | Move
  | Curve
  | QCurve
  | QClose
  | Line
deriving DecidableEq, Repr

/-- A handle slot: coincident with its point, or at an explicit position. -/
inductive Handle
  | At (x y : ℚ)
  | Colocated
deriving DecidableEq, Repr

/-- A contour point: position, two handle slots, a point-type tag and an
optional name.  The opaque per-point user data is omitted (no claim touches
it). -/
structure Point where
  x : ℚ
  y : ℚ
  a : Handle
  b : Handle
  ptype : PointType
  name : Option String := none
deriving DecidableEq, Repr

/-- An MFEKContour: the point sequence (`inner`) plus its owned contour
operation.  `Op` abstracts `Option<ContourOperations<_>>`. -/
structure MFEKContour (Op : Type) where
  inner : List Point
  operation : Op
deriving DecidableEq, Repr

/-- The editor state the claims are about: the active layer's outline, the
selection set (`self.selected`, a HashSet modelled as a list with membership
semantics) and the live index pair (`self.contour_idx` / `self.point_idx`). -/
structure EditorState (Op : Type) where
  outline : List (MFEKContour Op)
  selected : List (Nat × Nat)
  contour_idx : Option Nat
  point_idx : Option Nat
deriving DecidableEq, Repr

/-- The Layer-shaped clipboard payload built by copy and consumed by paste.
Color, images and the layer-level operation are carried through verbatim by
the source and not inspected; they are omitted here. -/
structure ClipLayer (Op : Type) where
  name : String
  visible : Bool
  outline : List (MFEKContour Op)
deriving DecidableEq, Repr

/-- `Editor::point_selected` (selection.rs:369): true if the pair matches the
live index pair or is in the selection set.  The source unwraps `contour_idx`
whenever `point_idx` is set (panicking if the pair invariant is broken); the
model is total and consults the set in that unreachable case. -/
def pointSelected {Op : Type} (st : EditorState Op) (ci pi : Nat) : Bool :=
  match st.point_idx, st.contour_idx with
  | some epi, some eci =>
      (decide (ci = eci) && decide (pi = epi)) || st.selected.contains (ci, pi)
  | _, _ => st.selected.contains (ci, pi)

/-- Accumulator of the split-and-filter walk shared by copy_selection and
delete_selection: the fragments pushed so far, the current fragment, the
running fragment start index (`begin` in the source) and the `deleted` flag. -/
structure PartAcc (Op : Type) where
  results : List (MFEKContour Op)
  cur : List Point
  beg : Nat
  deleted : Bool
deriving DecidableEq, Repr

/-- The per-point loop of the split-and-filter pass
(selection.rs:75-89 and 269-283).  `keep i` is the negation of `to_delete`
for point index `i`; a removed point closes off the current fragment, whose
operation is produced by the `sub(contour, begin, point_idx)` notification
(modelled by `opSub`, since the fresh fragment's operation before `sub` is
the default one produced by `Vec -> MFEKContour` conversion). -/
def partWalk {Op : Type} (opSub : MFEKContour Op → Nat → Nat → Op)
    (keep : Nat → Bool) (contour : MFEKContour Op) :
    List Point → Nat → PartAcc Op → PartAcc Op
  | [], _, acc => acc
  | p :: rest, i, acc =>
    if keep i then
      partWalk opSub keep contour rest (i + 1) { acc with cur := acc.cur ++ [p] }
    else
      partWalk opSub keep contour rest (i + 1)
        { results := acc.results ++ [{ inner := acc.cur, operation := opSub contour acc.beg i }],
          cur := [], beg := i + 1, deleted := true }

/-- The whole walk over a contour, including the trailing
`sub(contour, begin, len)` push (selection.rs:90-92 / 284-286).
Returns the fragment list and the `deleted` flag. -/
def walkFragments {Op : Type} (opSub : MFEKContour Op → Nat → Nat → Op)
    (keep : Nat → Bool) (contour : MFEKContour Op) :
    List (MFEKContour Op) × Bool :=
  let acc := partWalk opSub keep contour contour.inner 0
    { results := [], cur := [], beg := 0, deleted := false }
  (acc.results ++ [{ inner := acc.cur, operation := opSub contour acc.beg contour.inner.length }],
   acc.deleted)

/-- Whether the original contour's first point type is not Move
(`contour.inner.first().unwrap().ptype != PointType::Move`).  The source
unwraps; when the contour is empty the guard `results.len() > 1` has already
failed, so the `none` branch is unreachable there. -/
def headNotMove {Op : Type} (c : MFEKContour Op) : Bool :=
  match c.inner.head? with
  | some p => decide (p.ptype ≠ PointType.Move)
  | none => false

/-- The front/back merge for closed contours (selection.rs:94-102 / 288-297):
pop the last fragment, append the first fragment's points after its points
(Rust `Vec::append` drains `results[0].inner`, so the `end` handed to the
operation's `append` notification has an empty point list), notify the merged
fragment's operation, and overwrite the first result slot. -/
def mergeFront {Op : Type} (opAppend : Op → MFEKContour Op → MFEKContour Op → Op)
    (contour : MFEKContour Op) (results : List (MFEKContour Op)) :
    List (MFEKContour Op) :=
  if 1 < results.length ∧ headNotMove contour = true then
    match results with
    | [] => []
    | r0 :: _ =>
      let mtf := results.getLast?.getD r0
      let mergedInner := mtf.inner ++ r0.inner
      let startc : MFEKContour Op := { inner := mergedInner, operation := mtf.operation }
      let endc : MFEKContour Op := { inner := [], operation := r0.operation }
      results.dropLast.set 0
        { inner := mergedInner, operation := opAppend mtf.operation startc endc }
  else results

/-- Retype the first point of a fragment to Move
(`result.inner.first_mut().unwrap().ptype = PointType::Move`). -/
def retypeFirstMove : List Point → List Point
  | [] => []
  | p :: rest => { p with ptype := PointType.Move } :: rest

/-- The final emission loop (selection.rs:104-111 / 299-308): keep only
non-empty fragments, retyping each survivor's first point to Move when any
point of this contour was removed. -/
def finishResults {Op : Type} (deleted : Bool) :
    List (MFEKContour Op) → List (MFEKContour Op)
  | [] => []
  | r :: rest =>
    (if r.inner.isEmpty then []
     else [if deleted then { r with inner := retypeFirstMove r.inner } else r])
      ++ finishResults deleted rest

/-- The full split-and-filter pass for one contour, as duplicated verbatim in
`copy_selection` and `delete_selection` (parametrized by the keep
predicate). -/
def contourPartition {Op : Type} (opSub : MFEKContour Op → Nat → Nat → Op)
    (opAppend : Op → MFEKContour Op → MFEKContour Op → Op)
    (keep : Nat → Bool) (contour : MFEKContour Op) : List (MFEKContour Op) :=
  let wd := walkFragments opSub keep contour
  finishResults wd.2 (mergeFront opAppend contour wd.1)

/-- The outer loop over the active layer's outline, threading the contour
index into the keep predicate. -/
def outlinePartition {Op : Type} (opSub : MFEKContour Op → Nat → Nat → Op)
    (opAppend : Op → MFEKContour Op → MFEKContour Op → Op)
    (keep2 : Nat → Nat → Bool) :
    Nat → List (MFEKContour Op) → List (MFEKContour Op)
  | _, [] => []
  | ci, c :: rest =>
    contourPartition opSub opAppend (keep2 ci) c
      ++ outlinePartition opSub opAppend keep2 (ci + 1) rest

/-- `Editor::copy_selection` (selection.rs:65-139): runs the split-and-filter
pass with `keep = is_selected`, leaves the editor state untouched, and
produces the Layer-shaped clipboard payload (name "", visible, the kept
fragments).  The JSON serialization and the OS clipboard write are external;
the payload value is returned instead. -/
def copy_selection {Op : Type} (opSub : MFEKContour Op → Nat → Nat → Op)
    (opAppend : Op → MFEKContour Op → MFEKContour Op → Op)
    (st : EditorState Op) : EditorState Op × ClipLayer Op :=
  (st,
   { name := "", visible := true,
     outline := outlinePartition opSub opAppend (fun ci pi => pointSelected st ci pi) 0 st.outline })

/-- `Editor::delete_selection` (selection.rs:257-317): split-and-filter with
`keep = !is_selected`, replace the outline, clear the selection set and the
live index pair. -/
def delete_selection {Op : Type} (opSub : MFEKContour Op → Nat → Nat → Op)
    (opAppend : Op → MFEKContour Op → MFEKContour Op → Op)
    (st : EditorState Op) : EditorState Op :=
  { outline := outlinePartition opSub opAppend (fun ci pi => !pointSelected st ci pi) 0 st.outline,
    selected := [], contour_idx := none, point_idx := none }

/-- Replace the element at index `i` (no-op when out of range; the source's
direct indexing would panic there). -/
def listModifyAt {α : Type} (l : List α) (i : Nat) (f : α → α) : List α :=
  match l.get? i with
  | some a => l.set i (f a)
  | none => l

/-- `Editor::simplify_selection` (selection.rs:239-255): remove exactly the
live point from its contour (`contour.inner.remove(point_idx)`), then clear
the selection and live pair.  The source unwraps the live pair (panicking
when unset); that unreachable case is modelled as a no-op. -/
def simplify_selection {Op : Type} (st : EditorState Op) : EditorState Op :=
  match st.contour_idx, st.point_idx with
  | some ci, some pi =>
    { st with
      outline := listModifyAt st.outline ci (fun c => { c with inner := c.inner.eraseIdx pi }),
      selected := [], contour_idx := none, point_idx := none }
  | _, _ => st

/-- The tab delimiter of the clipboard framing. -/
def tabChar : Char := '\t'

/-- This application's clipboard mimetype tag (selection.rs:114, 166). -/
def mimetypeTag : String := "text/vnd.mfek.glifjson"

/-- Rust's `str::split_once('\t')` on the character list: split at the first
tab, or return none when there is no tab. -/
def splitAtTab : List Char → Option (List Char × List Char)
  | [] => none
  | c :: rest =>
    if c = tabChar then some ([], rest)
    else
      match splitAtTab rest with
      | some (a, b) => some (c :: a, b)
      | none => none

/-- `cbtext.split_once('\t')` (selection.rs:150). -/
def splitOnceTab (s : String) : Option (String × String) :=
  match splitAtTab s.data with
  | some (a, b) => some (String.mk a, String.mk b)
  | none => none

/-- One pasted point translated by `dist` (selection.rs:204-217): the
position always moves; a handle moves only when it is `At` (colocated
handles are untouched). -/
def translatePoint (dist : ℚ × ℚ) (p : Point) : Point :=
  { p with
    x := p.x + dist.1
    y := p.y + dist.2
    a := match p.a with
      | Handle.At ax ay => Handle.At (ax + dist.1) (ay + dist.2)
      | Handle.Colocated => Handle.Colocated
    b := match p.b with
      | Handle.At bx b2 => Handle.At (bx + dist.1) (b2 + dist.2)
      | Handle.Colocated => Handle.Colocated }

/-- The translation loop over one pasted contour. -/
def translateContour {Op : Type} (dist : ℚ × ℚ) (c : MFEKContour Op) :
    MFEKContour Op :=
  { c with inner := c.inner.map (translatePoint dist) }

/-- Every coordinate pair contributing to the bounding box of an outline:
each point's position plus each non-colocated handle's position. -/
def bboxPoints {Op : Type} (outline : List (MFEKContour Op)) : List (ℚ × ℚ) :=
  match outline with
  | [] => []
  | c :: rest =>
    (c.inner.map (fun p => (p.x, p.y))
      ++ c.inner.filterMap (fun p =>
          match p.a with
          | Handle.At ax ay => some (ax, ay)
          | Handle.Colocated => none)
      ++ c.inner.filterMap (fun p =>
          match p.b with
          | Handle.At bx b2 => some (bx, b2)
          | Handle.Colocated => none))
      ++ bboxPoints rest

/-- Modelled from the spec: the paste path computes the bounding-box center of
the pasted content through the renderer's combine-paths-and-compute-bounds
utility (`to_skia_paths(None).combined().bounds().center()`, external to this
excerpt); §4.3 of the spec defines it as "the bounding box center of the
pasted content".  The box spans every point position and every non-colocated
handle position; an empty content yields (0, 0). -/
def bboxCenter {Op : Type} (outline : List (MFEKContour Op)) : ℚ × ℚ :=
  let pts := bboxPoints outline
  let xs := pts.map Prod.fst
  let ys := pts.map Prod.snd
  (((xs.min?.getD 0) + (xs.max?.getD 0)) / 2,
   ((ys.min?.getD 0) + (ys.max?.getD 0)) / 2)

/-- The selection pairs built for the pasted contours
(selection.rs:221-229): for each pasted contour, `cur_idx` is the layer's
outline length at push time (pre-paste length plus the running offset), and
every point index of the contour is paired with it. -/
def buildNewSelected {Op : Type} : Nat → List (MFEKContour Op) → List (Nat × Nat)
  | _, [] => []
  | idx, c :: rest =>
    (List.range c.inner.length).map (fun pi => (idx, pi))
      ++ buildNewSelected (idx + 1) rest

/-- `Editor::paste_selection` (selection.rs:143-237).  The OS clipboard read
is modelled by the optional `clip` text (none = clipboard inaccessible) and
the external JSON deserializer by `deser`.  Every failure branch returns
before `begin_modification`, leaving the state untouched.  On success: the
live pair and the selection set are cleared, the content is translated by
`position - center` when a position is supplied, each pasted contour is
appended to the outline, and the cleared selection is extended with the new
pairs. -/
def paste_selection {Op : Type} (deser : String → Option (ClipLayer Op))
    (clip : Option String) (position : Option (ℚ × ℚ)) (st : EditorState Op) :
    EditorState Op :=
  match clip with
  | none => st
  | some text =>
    match splitOnceTab text with
    | none => st
    | some (mimetype, d) =>
      if mimetype ≠ mimetypeTag then st
      else
        match deser d with
        | none => st
        | some cb =>
          let moved :=
            match position with
            | some mpos =>
              let center := bboxCenter cb.outline
              let dist := (mpos.1 - center.1, mpos.2 - center.2)
              cb.outline.map (translateContour dist)
            | none => cb.outline
          { outline := st.outline ++ moved,
            selected := buildNewSelected st.outline.length moved,
            contour_idx := none,
            point_idx := none }

/-- `Editor::selected` (selection.rs:357-367): the live pair when both
indices are set, otherwise an element of the selection set (HashSet iteration
order is modelled by the list head).  `Select::reverse_selected` calls this
to pick the contour to reverse. -/
def selectedPair {Op : Type} (st : EditorState Op) : Option (Nat × Nat) :=
  match st.contour_idx, st.point_idx with
  | some ci, some pi => some (ci, pi)
  | _, _ => st.selected.head?

/-- `Select::reverse_selected` (tools/select/mod.rs:110-141).
glifparser's `reverse_points` is modelled from the spec ("reverses the point
order of one contour") as list reversal; its `is_open` (open vs. closed is
emergent from the point types, per the spec's data model) is external to this
excerpt and is taken as a parameter — note the source queries it on the
contour after reversal.  The live point index is remapped for a closed
contour (0 stays 0, else `contour_len - pi`), dropped for an open one, and
the live contour index is dropped whenever no live point index survives. -/
def reverse_selected {Op : Type} (isOpenFn : MFEKContour Op → Bool)
    (st : EditorState Op) : EditorState Op :=
  match selectedPair st with
  | none => st
  | some (ci, _) =>
    match st.outline.get? ci with
    | none => st
    | some c =>
      let contour_len := c.inner.length
      let reversed : MFEKContour Op := { c with inner := c.inner.reverse }
      let point_idx1 : Option Nat :=
        match st.point_idx with
        | some pi =>
          if isOpenFn reversed = false then
            if pi = 0 then some 0 else some (contour_len - pi)
          else none
        | none => none
      { outline := st.outline.set ci reversed,
        selected := st.selected,
        contour_idx := if point_idx1.isSome then st.contour_idx else none,
        point_idx := point_idx1 }

/-- The contour-operation sum type (glifparser), §9 of the spec: a tagged
union over the three procedural variants, each owning its parameter struct.
The parameter structs live outside this excerpt and are abstracted as type
parameters. -/
inductive ContourOperations (V P D : Type)
  | VariableWidthStroke (data : V)
  | PatternAlongPath (data : P)
  | DashAlongPath (data : D)
deriving DecidableEq, Repr

/-- Modelled from the spec: glifparser's `unknown_op_outline()` is not in
this excerpt; the spec's error policy says an operation variant with no
matching generator "yields a well-defined empty/placeholder outline". -/
def unknown_op_outline {Op : Type} : List (MFEKContour Op) := []

/-- `ContourOperationBuild::build` for `Option<ContourOperations>`
(contour_operations/mod.rs:13-28): pass the skeleton through untouched (with
operation None) when the contour has no operation; otherwise dispatch on the
receiver to the variant's generator, falling back to `unknown_op_outline()`
on the wildcard arm.  The three generators are external algorithms
(MFEKmath) and are taken as parameters. -/
def build {V P D : Type}
    (vwsBuild : V → MFEKContour (Option (ContourOperations V P D)) →
      List (MFEKContour (Option (ContourOperations V P D))))
    (papBuild : P → MFEKContour (Option (ContourOperations V P D)) →
      List (MFEKContour (Option (ContourOperations V P D))))
    (dashBuild : D → MFEKContour (Option (ContourOperations V P D)) →
      List (MFEKContour (Option (ContourOperations V P D))))
    (self : Option (ContourOperations V P D))
    (contour : MFEKContour (Option (ContourOperations V P D))) :
    List (MFEKContour (Option (ContourOperations V P D))) :=
  match contour.operation with
  | none => [{ inner := contour.inner, operation := none }]
  | some _ =>
    match self with
    | some (ContourOperations.VariableWidthStroke dt) => vwsBuild dt contour
    | some (ContourOperations.PatternAlongPath dt) => papBuild dt contour
    | some (ContourOperations.DashAlongPath dt) => dashBuild dt contour
    | none => unknown_op_outline

/-- The kept points of a point list under a keep predicate, starting at index
`i`: the reference "kept points of C in original relative order" of the
spec's partition-completeness property. -/
def keptFrom (keep : Nat → Bool) : Nat → List Point → List Point
  | _, [] => []
  | i, p :: rest =>
    if keep i then p :: keptFrom keep (i + 1) rest else keptFrom keep (i + 1) rest

/-- The kept points of a contour's point list, in original relative order. -/
def keptPoints (keep : Nat → Bool) (l : List Point) : List Point :=
  keptFrom keep 0 l

/-- Concatenation of the point sequences of a fragment list. -/
def joinInner {Op : Type} : List (MFEKContour Op) → List Point
  | [] => []
  | r :: rest => r.inner ++ joinInner rest

/-- Forget the point-type tag (the only field the Move retype changes). -/
def stripPtype (p : Point) : Point :=
  { p with ptype := PointType.Move }

/-! Concrete instances used to evaluate the theorems on explicit inputs. -/

/-- A handle-less point with the given position and type. -/
def mkPoint (px py : ℚ) (pt : PointType) : Point :=
  { x := px, y := py, a := Handle.Colocated, b := Handle.Colocated, ptype := pt }

/-- Trivial `sub` notification for the unit operation type. -/
def uSub : MFEKContour Unit → Nat → Nat → Unit := fun _ _ _ => ()

/-- Trivial `append` notification for the unit operation type. -/
def uApp : Unit → MFEKContour Unit → MFEKContour Unit → Unit := fun _ _ _ => ()

def cexP0 : Point := mkPoint 0 0 PointType.Line
def cexP1 : Point := mkPoint 1 0 PointType.Line
def cexP2 : Point := mkPoint 2 0 PointType.Line

/-- A closed three-point contour (first point type is not Move). -/
def cexContour : MFEKContour Unit :=
  { inner := [cexP0, cexP1, cexP2], operation := () }

/-- Editor state whose selection set holds exactly the middle point of the
closed contour. -/
def cexState : EditorState Unit :=
  { outline := [cexContour], selected := [(0, 1)], contour_idx := none, point_idx := none }

/-- Keep predicate removing exactly index 1 (used with `walkFragments`). -/
def w2keep : Nat → Bool := fun i => decide (i ≠ 1)

/-- First fragment of the walk over `cexContour` with `w2keep`. -/
def c2r0 : MFEKContour Unit := { inner := [cexP0], operation := () }

/-- Remaining fragments of that walk. -/
def c2rest : List (MFEKContour Unit) := [{ inner := [cexP2], operation := () }]

/-- A deserializer modelling a clipboard whose payload never parses. -/
def noDeser : String → Option (ClipLayer Unit) := fun _ => none

/-- Clipboard text with a tab but a foreign mimetype tag. -/
def badClipText : String := "text/plain\tjunk"

/-- The payload half of the well-formed clipboard text below. -/
def payloadKey : String := "payload"

/-- Well-formed clipboard text: our tag, a tab, then the payload. -/
def goodClipText : String := "text/vnd.mfek.glifjson\tpayload"

/-- A clipboard layer holding one single-point contour. -/
def clip4 : ClipLayer Unit :=
  { name := "", visible := true,
    outline := [{ inner := [mkPoint 5 5 PointType.Move], operation := () }] }

/-- Deserializer recognising exactly `payloadKey`. -/
def deser4 : String → Option (ClipLayer Unit) :=
  fun s => if s = payloadKey then some clip4 else none

/-- Pre-paste editor state: one contour, the pair (0,0) selected. -/
def st4 : EditorState Unit :=
  { outline := [{ inner := [cexP0], operation := () }], selected := [(0, 0)],
    contour_idx := none, point_idx := none }

/-- State with a single one-point contour whose only point is live. -/
def st5 : EditorState Unit :=
  { outline := [{ inner := [mkPoint 3 3 PointType.Move], operation := () }],
    selected := [], contour_idx := some 0, point_idx := some 0 }

/-- State with a single one-point contour and nothing selected. -/
def st5del : EditorState Unit :=
  { outline := [{ inner := [mkPoint 3 3 PointType.Move], operation := () }],
    selected := [], contour_idx := none, point_idx := none }

/-- A closed three-point contour for the reversal witness. -/
def revContour : MFEKContour Unit :=
  { inner := [mkPoint 0 0 PointType.Line, mkPoint 1 0 PointType.Curve,
              mkPoint 2 1 PointType.Curve], operation := () }

/-- State whose live point is index 1 of the closed contour. -/
def st6 : EditorState Unit :=
  { outline := [revContour], selected := [], contour_idx := some 0, point_idx := some 1 }

/-- The spec's notion of openness: the first point's type is Move. -/
def isOpenHeadMove : MFEKContour Unit → Bool := fun c =>
  match c.inner.head? with
  | some p => decide (p.ptype = PointType.Move)
  | none => true

/-- Clipboard layer holding one handle-less point at (10, 10), the spec's
paste-positioning example. -/
def clip7 : ClipLayer Unit :=
  { name := "", visible := true,
    outline := [{ inner := [mkPoint 10 10 PointType.Move], operation := () }] }

/-- Deserializer recognising exactly `payloadKey` as `clip7`. -/
def deser7 : String → Option (ClipLayer Unit) :=
  fun s => if s = payloadKey then some clip7 else none

/-- An empty editor state to paste into. -/
def st7 : EditorState Unit :=
  { outline := [], selected := [], contour_idx := none, point_idx := none }

/-- A contour with no operation, for the build pass-through witness. -/
def bCtr : MFEKContour (Option (ContourOperations Unit Unit Unit)) :=
  { inner := [mkPoint 7 7 PointType.Move], operation := none }

/-- A contour that reports an operation, used with a dispatched None. -/
def bCtrOp : MFEKContour (Option (ContourOperations Unit Unit Unit)) :=
  { inner := [mkPoint 7 7 PointType.Move],
    operation := some (ContourOperations.PatternAlongPath ()) }

/-- A trivial stand-in generator for the build witnesses. -/
def trivGen : Unit → MFEKContour (Option (ContourOperations Unit Unit Unit)) →
    List (MFEKContour (Option (ContourOperations Unit Unit Unit))) := fun _ _ => []

/-! List helper lemmas shared by the claim proofs. -/

theorem get?_append_len {α : Type} (l1 l2 : List α) :
    ∀ j, (l1 ++ l2).get? (l1.length + j) = l2.get? j := by
  induction l1 with
  | nil => intro j; simp
  | cons a t ih =>
    intro j
    simpa [List.length_cons, Nat.succ_add] using ih j

theorem set_of_get? {α : Type} (l : List α) :
    ∀ i a, l.get? i = some a → l.set i a = l := by
  induction l with
  | nil => intro i a h; simp at h
  | cons b t ih =>
    intro i a h
    cases i with
    | zero =>
      simp only [List.get?] at h
      cases h
      rfl
    | succ n =>
      simp only [List.get?] at h
      simp [List.set, ih n a h]

theorem get?_set_self {α : Type} (l : List α) :
    ∀ i a, i < l.length → (l.set i a).get? i = some a := by
  induction l with
  | nil => intro i a h; simp at h
  | cons b t ih =>
    intro i a h
    cases i with
    | zero => rfl
    | succ n => exact ih n a (Nat.lt_of_succ_lt_succ h)

/-! Claim theorems. -/

/-- Claim C8: `build` on a contour whose operation field is None returns an
outline with exactly one contour whose points equal the skeleton's point
sequence by value and whose operation is None (contour_operations/mod.rs:15-19). -/
theorem claim_C8 {V P D : Type}
    (vwsBuild papBuild : _) (dashBuild : _)
    (self : Option (ContourOperations V P D))
    (contour : MFEKContour (Option (ContourOperations V P D)))
    (h : contour.operation = none) :
    build vwsBuild papBuild dashBuild self contour
      = [{ inner := contour.inner, operation := none }] := by
  simp [build, h]

/-- Witness for C8 at a concrete one-point contour with no operation. -/
theorem claim_C8_witness :
    build trivGen trivGen trivGen none bCtr
      = [{ inner := bCtr.inner, operation := none }] :=
  claim_C8 trivGen trivGen trivGen none bCtr rfl

/-- Claim C9: when the contour reports an operation but the dispatched Option
is None (the wildcard arm of the build dispatch), `build` returns the
well-defined placeholder `unknown_op_outline()` — it never panics
(contour_operations/mod.rs:21-27; the model is total by construction). -/
theorem claim_C9 {V P D : Type}
    (vwsBuild papBuild : _) (dashBuild : _)
    (w : ContourOperations V P D)
    (contour : MFEKContour (Option (ContourOperations V P D)))
    (h : contour.operation = some w) :
    build vwsBuild papBuild dashBuild none contour = unknown_op_outline := by
  simp [build, h]

/-- Witness for C9 at a contour reporting a PatternAlongPath operation while
the dispatched Option is None. -/
theorem claim_C9_witness :
    build trivGen trivGen trivGen none bCtrOp = unknown_op_outline :=
  claim_C9 trivGen trivGen trivGen (ContourOperations.PatternAlongPath ()) bCtrOp rfl

/-- Claim C10: `copy_selection` leaves the editor state (outline, selection
set, live index pair) unchanged; its only effect is producing the clipboard
payload (selection.rs:65-139 performs no state write). -/
theorem claim_C10 {Op : Type} (opSub : MFEKContour Op → Nat → Nat → Op)
    (opAppend : Op → MFEKContour Op → MFEKContour Op → Op)
    (st : EditorState Op) :
    (copy_selection opSub opAppend st).1 = st := rfl

/-- Claim C3: every paste failure case — inaccessible clipboard, clipboard
text without a tab, a foreign mimetype tag, or an undeserializable payload —
returns with the editor state (outline, selection set, live pair) unchanged
(selection.rs:143-187: every failure branch returns before
`begin_modification` and before any mutation). -/
theorem claim_C3 {Op : Type} (deser : String → Option (ClipLayer Op))
    (clip : Option String) (position : Option (ℚ × ℚ)) (st : EditorState Op)
    (h : clip = none
      ∨ (∃ t, clip = some t ∧ splitOnceTab t = none)
      ∨ (∃ t mt d, clip = some t ∧ splitOnceTab t = some (mt, d) ∧ mt ≠ mimetypeTag)
      ∨ (∃ t mt d, clip = some t ∧ splitOnceTab t = some (mt, d) ∧ deser d = none)) :
    paste_selection deser clip position st = st := by
  rcases h with h | ⟨t, ht, hs⟩ | ⟨t, mt, d, ht, hs, hmt⟩ | ⟨t, mt, d, ht, hs, hd⟩
  · simp [paste_selection, h]
  · simp [paste_selection, ht, hs]
  · simp [paste_selection, ht, hs, hmt]
  · subst ht
    by_cases hmt : mt = mimetypeTag
    · simp [paste_selection, hs, hmt, hd]
    · simp [paste_selection, hs, hmt]

/-- Witness for C3: pasting clipboard text carrying the tag `text/plain`
leaves a concrete state unchanged. -/
theorem claim_C3_witness :
    paste_selection noDeser (some badClipText) none cexState = cexState :=
  claim_C3 noDeser (some badClipText) none cexState
    (Or.inr (Or.inr (Or.inl ⟨badClipText, "text/plain", "junk", rfl, by decide, by decide⟩)))

theorem retypeFirstMove_ne_nil {l : List Point} (h : l ≠ []) :
    retypeFirstMove l ≠ [] := by
  cases l with
  | nil => exact absurd rfl h
  | cons p rest => simp [retypeFirstMove]

theorem mem_finishResults_ne_nil {Op : Type} (d : Bool) :
    ∀ (rs : List (MFEKContour Op)) (c : MFEKContour Op),
      c ∈ finishResults d rs → c.inner ≠ [] := by
  intro rs
  induction rs with
  | nil => intro c h; simp [finishResults] at h
  | cons r rest ih =>
    intro c h
    simp only [finishResults] at h
    rcases List.mem_append.1 h with h1 | h2
    · by_cases he : r.inner.isEmpty
      · simp [he] at h1
      · have hne : r.inner ≠ [] := by
          intro hh; exact he (by simp [hh])
        simp only [if_neg he] at h1
        rw [List.mem_singleton] at h1
        subst h1
        cases d with
        | false => simpa using hne
        | true => simpa using retypeFirstMove_ne_nil hne
    · exact ih c h2

theorem mem_outlinePartition_ne_nil {Op : Type}
    (opSub : MFEKContour Op → Nat → Nat → Op)
    (opAppend : Op → MFEKContour Op → MFEKContour Op → Op)
    (keep2 : Nat → Nat → Bool) :
    ∀ (ci : Nat) (outline : List (MFEKContour Op)) (c : MFEKContour Op),
      c ∈ outlinePartition opSub opAppend keep2 ci outline → c.inner ≠ [] := by
  intro ci outline
  induction outline generalizing ci with
  | nil => intro c h; simp [outlinePartition] at h
  | cons ctr rest ih =>
    intro c h
    simp only [outlinePartition] at h
    rcases List.mem_append.1 h with h1 | h2
    · exact mem_finishResults_ne_nil _ _ c h1
    · exact ih (ci + 1) c h2

/-- Claim C5 (amended): `delete_selection` emits only non-empty fragments, so
it never leaves a zero-point contour in the outline (selection.rs:299-308);
`simplify_selection` does not enjoy this invariant (see the counterexample). -/
theorem claim_C5 {Op : Type} (opSub : MFEKContour Op → Nat → Nat → Op)
    (opAppend : Op → MFEKContour Op → MFEKContour Op → Op)
    (st : EditorState Op) :
    ∀ c ∈ (delete_selection opSub opAppend st).outline, c.inner ≠ [] := by
  intro c h
  exact mem_outlinePartition_ne_nil opSub opAppend _ 0 st.outline c h

/-- Witness for C5 at a concrete one-contour state with nothing selected. -/
theorem claim_C5_witness :
    ({ inner := [mkPoint 3 3 PointType.Move], operation := () } : MFEKContour Unit).inner ≠ [] :=
  claim_C5 uSub uApp st5del
    { inner := [mkPoint 3 3 PointType.Move], operation := () } (by decide)

/-- Counterexample to C5 as stated: `simplify_selection` on a state whose
live contour has exactly one point (its only point live) removes that point
and leaves the now zero-point contour in the outline
(selection.rs:248 removes the point; nothing drops the emptied contour). -/
theorem claim_C5_cex :
    (simplify_selection st5).outline = [{ inner := [], operation := () }]
      ∧ ({ inner := [], operation := () } : MFEKContour Unit)
          ∈ (simplify_selection st5).outline := by
  decide

/-- Claim C2: for a closed contour (first point type not Move) whose walk
produced at least two fragments, the merge step replaces the first result
slot by a fragment whose points are (last fragment's points) ++ (first
fragment's points), drops the last slot, and shrinks the fragment count by
exactly one (selection.rs:94-102 / 288-297). -/
theorem claim_C2 {Op : Type} (opSub : MFEKContour Op → Nat → Nat → Op)
    (opAppend : Op → MFEKContour Op → MFEKContour Op → Op)
    (keep : Nat → Bool) (contour : MFEKContour Op)
    (r0 : MFEKContour Op) (rest : List (MFEKContour Op)) (p : Point)
    (hw : (walkFragments opSub keep contour).1 = r0 :: rest)
    (hne : rest ≠ [])
    (hhead : contour.inner.head? = some p)
    (hmove : p.ptype ≠ PointType.Move) :
    (∃ op', mergeFront opAppend contour (r0 :: rest)
        = { inner := ((r0 :: rest).getLast?.getD r0).inner ++ r0.inner,
            operation := op' } :: rest.dropLast)
      ∧ (mergeFront opAppend contour (r0 :: rest)).length = (r0 :: rest).length - 1 := by
  obtain ⟨l', last, hconcat⟩ := (List.eq_nil_or_concat rest).resolve_left hne
  rw [List.concat_eq_append] at hconcat
  subst hconcat
  have hsplit : r0 :: (l' ++ [last]) = (r0 :: l') ++ [last] := by simp
  have hcond : 1 < (r0 :: (l' ++ [last])).length ∧ headNotMove contour = true := by
    refine ⟨?_, ?_⟩
    · simp
    · simp [headNotMove, hhead, hmove]
  have hlast : (r0 :: (l' ++ [last])).getLast? = some last := by
    rw [hsplit]; exact List.getLast?_concat _
  have hdrop : (r0 :: (l' ++ [last])).dropLast = r0 :: l' := by
    rw [hsplit]; exact List.dropLast_concat
  have hdrop2 : (l' ++ [last]).dropLast = l' := List.dropLast_concat
  constructor
  · refine ⟨opAppend last.operation
      { inner := last.inner ++ r0.inner, operation := last.operation }
      { inner := [], operation := r0.operation }, ?_⟩
    rw [mergeFront, if_pos hcond]
    simp only [hlast, hdrop, hdrop2, Option.getD_some, List.set]
  · rw [mergeFront, if_pos hcond]
    simp only [hlast, hdrop, Option.getD_some, List.set]
    simp

/-- Witness for C2: the closed contour `cexContour` split at its middle
point merges its two fragments into one. -/
theorem claim_C2_witness :
    (∃ op', mergeFront uApp cexContour (c2r0 :: c2rest)
        = { inner := ((c2r0 :: c2rest).getLast?.getD c2r0).inner ++ c2r0.inner,
            operation := op' } :: c2rest.dropLast)
      ∧ (mergeFront uApp cexContour (c2r0 :: c2rest)).length
          = (c2r0 :: c2rest).length - 1 :=
  claim_C2 uSub uApp w2keep cexContour c2r0 c2rest cexP0
    (by decide) (by decide) rfl (by decide)

/-- Claim C6: reversing a contour twice restores its point order; for a
closed contour with live point index `pi` one reversal remaps the live index
to 0 when it was 0 and to `contour_len - pi` otherwise, so two reversals
restore the whole editor state; for an open contour one reversal drops the
live point reference and with it the live contour reference
(tools/select/mod.rs:110-141; `reverse_points` and `is_open` are glifparser
externals, modelled per the spec as list reversal and an arbitrary
openness test — the source queries openness on the already-reversed
contour, so the closed-contour hypotheses speak of both orientations). -/
theorem claim_C6 {Op : Type} (isOpenFn : MFEKContour Op → Bool)
    (st : EditorState Op) (ci pi : Nat) (c : MFEKContour Op)
    (hci : st.contour_idx = some ci) (hpi : st.point_idx = some pi)
    (hc : st.outline.get? ci = some c) (hlen : pi < c.inner.length) :
    (({ c with inner := c.inner.reverse } : MFEKContour Op).inner.reverse = c.inner)
      ∧ (isOpenFn { c with inner := c.inner.reverse } = false →
          (reverse_selected isOpenFn st).point_idx
              = (if pi = 0 then some 0 else some (c.inner.length - pi))
            ∧ (reverse_selected isOpenFn st).outline
              = st.outline.set ci { c with inner := c.inner.reverse })
      ∧ (isOpenFn { c with inner := c.inner.reverse } = false →
          isOpenFn c = false →
          reverse_selected isOpenFn (reverse_selected isOpenFn st) = st)
      ∧ (isOpenFn { c with inner := c.inner.reverse } = true →
          (reverse_selected isOpenFn st).point_idx = none
            ∧ (reverse_selected isOpenFn st).contour_idx = none) := by
  obtain ⟨o, sel, cidx, pidx⟩ := st
  obtain ⟨cin, cop⟩ := c
  dsimp only at hci hpi hc hlen ⊢
  subst hci
  subst hpi
  have hlt : ci < o.length := by
    rcases Nat.lt_or_ge ci o.length with h | h
    · exact h
    · rw [List.get?_eq_none.2 h] at hc
      exact Option.noConfusion hc
  have hce : o[ci]? = some { inner := cin, operation := cop } := by
    rw [← List.get?_eq_getElem?]; exact hc
  refine ⟨by simp, ?_, ?_, ?_⟩
  · intro hclosed
    constructor
    · by_cases hp0 : pi = 0 <;>
        simp [reverse_selected, selectedPair, hce, hclosed, hp0]
    · by_cases hp0 : pi = 0 <;>
        simp [reverse_selected, selectedPair, hce, hclosed, hp0]
  · intro hclosed hclosed2
    have hst1 : reverse_selected isOpenFn
        ⟨o, sel, some ci, some pi⟩
        = ⟨o.set ci { inner := cin.reverse, operation := cop }, sel, some ci,
           some (if pi = 0 then 0 else cin.length - pi)⟩ := by
      by_cases hp0 : pi = 0 <;>
        simp [reverse_selected, selectedPair, hce, hclosed, hp0]
    rw [hst1]
    have hget2g : (o.set ci { inner := cin.reverse, operation := cop }).get? ci
        = some { inner := cin.reverse, operation := cop } :=
      get?_set_self o ci _ hlt
    have hget2 : (o.set ci { inner := cin.reverse, operation := cop })[ci]?
        = some { inner := cin.reverse, operation := cop } := by
      rw [← List.get?_eq_getElem?]
      exact hget2g
    simp only [reverse_selected, selectedPair, hget2, hget2g, List.reverse_reverse,
      List.length_reverse]
    rw [hclosed2]
    rw [List.set_set, set_of_get? o ci _ hc]
    by_cases hp0 : pi = 0
    · simp [hp0]
    · have hq : ¬(cin.length - pi = 0) := by omega
      have harith : cin.length - (cin.length - pi) = pi := by omega
      simp [if_neg hp0, if_neg hq, harith]
  · intro hopen
    constructor <;> simp [reverse_selected, selectedPair, hce, hopen]

/-- Witness for C6: the closed contour `revContour` with live point index 1;
two reversals restore the state. -/
theorem claim_C6_witness :
    reverse_selected isOpenHeadMove (reverse_selected isOpenHeadMove st6) = st6 :=
  (claim_C6 isOpenHeadMove st6 0 1 revContour rfl rfl rfl (by decide)).2.2.1
    (by decide) (by decide)

theorem get?_map' {α β : Type} (f : α → β) :
    ∀ (l : List α) (n : Nat), (l.map f).get? n = (l.get? n).map f := by
  intro l
  induction l with
  | nil => intro n; simp
  | cons a t ih =>
    intro n
    cases n with
    | zero => rfl
    | succ m => exact ih m

/-- Claim C7: a successful paste with target position `p` translates every
pasted point's position, and every non-colocated handle, by exactly
`p - center` where `center` is the bounding-box center of the pasted content
before translation; colocated handles stay colocated
(selection.rs:198-219; the center itself comes from the renderer's external
bounds utility, modelled from the spec as the content's bounding-box center). -/
theorem claim_C7 {Op : Type} (deser : String → Option (ClipLayer Op))
    (t mt d : String) (cb : ClipLayer Op) (p : ℚ × ℚ) (st : EditorState Op)
    (h1 : splitOnceTab t = some (mt, d)) (h2 : mt = mimetypeTag)
    (h3 : deser d = some cb) :
    ∀ j c pj q, cb.outline.get? j = some c → c.inner.get? pj = some q →
      ∃ q', ((paste_selection deser (some t) (some p) st).outline.get?
              (st.outline.length + j)).bind (fun c' => c'.inner.get? pj) = some q'
        ∧ q'.x = q.x + (p.1 - (bboxCenter cb.outline).1)
        ∧ q'.y = q.y + (p.2 - (bboxCenter cb.outline).2)
        ∧ (q.a = Handle.Colocated → q'.a = Handle.Colocated)
        ∧ (∀ ax ay, q.a = Handle.At ax ay →
            q'.a = Handle.At (ax + (p.1 - (bboxCenter cb.outline).1))
              (ay + (p.2 - (bboxCenter cb.outline).2)))
        ∧ (q.b = Handle.Colocated → q'.b = Handle.Colocated)
        ∧ (∀ b1 b2, q.b = Handle.At b1 b2 →
            q'.b = Handle.At (b1 + (p.1 - (bboxCenter cb.outline).1))
              (b2 + (p.2 - (bboxCenter cb.outline).2))) := by
  subst h2
  intro j c pj q hj hq
  have hjE : cb.outline[j]? = some c := by
    rw [← List.get?_eq_getElem?]; exact hj
  have hqE : c.inner[pj]? = some q := by
    rw [← List.get?_eq_getElem?]; exact hq
  have happ : ∀ (l1 l2 : List (MFEKContour Op)) (n : Nat),
      (l1 ++ l2)[l1.length + n]? = l2[n]? := by
    intro l1 l2 n
    rw [← List.get?_eq_getElem?, ← List.get?_eq_getElem?]
    exact get?_append_len l1 l2 n
  have hmapc : ∀ (f : MFEKContour Op → MFEKContour Op) (l : List (MFEKContour Op)) (n : Nat),
      (l.map f)[n]? = l[n]?.map f := by
    intro f l n
    rw [← List.get?_eq_getElem?, ← List.get?_eq_getElem?]
    exact get?_map' f l n
  have hmapp : ∀ (f : Point → Point) (l : List Point) (n : Nat),
      (l.map f)[n]? = l[n]?.map f := by
    intro f l n
    rw [← List.get?_eq_getElem?, ← List.get?_eq_getElem?]
    exact get?_map' f l n
  have hpaste : (paste_selection deser (some t) (some p) st).outline
      = st.outline ++ cb.outline.map
          (translateContour (p.1 - (bboxCenter cb.outline).1,
                             p.2 - (bboxCenter cb.outline).2)) := by
    simp [paste_selection, h1, h3]
  refine ⟨translatePoint (p.1 - (bboxCenter cb.outline).1,
                          p.2 - (bboxCenter cb.outline).2) q, ?_, rfl, rfl, ?_, ?_, ?_, ?_⟩
  · simp [hpaste, happ, hmapc, hmapp, hjE, hqE, translateContour]
  · intro ha; simp [translatePoint, ha]
  · intro ax ay ha; simp [translatePoint, ha]
  · intro hb; simp [translatePoint, hb]
  · intro b1 b2 hb; simp [translatePoint, hb]

/-- Witness for C7, the spec's example: pasting a single handle-less point at
(10, 10) with target position (50, 50) yields a point at (50, 50). -/
theorem claim_C7_witness :
    ∃ q', ((paste_selection deser7 (some goodClipText) (some (50, 50)) st7).outline.get? 0).bind
            (fun c' => c'.inner.get? 0) = some q'
      ∧ q'.x = 50 ∧ q'.y = 50 := by
  obtain ⟨q', hbind, hx, hy, _⟩ :=
    claim_C7 deser7 goodClipText mimetypeTag payloadKey clip7 (50, 50) st7
      (by decide) rfl (by decide) 0 { inner := [mkPoint 10 10 PointType.Move], operation := () }
      0 (mkPoint 10 10 PointType.Move) rfl rfl
  have hcen : bboxCenter clip7.outline = ((10 : ℚ), (10 : ℚ)) := by
    norm_num [bboxCenter, bboxPoints, clip7, mkPoint]
  refine ⟨q', hbind, ?_, ?_⟩
  · rw [hx, hcen]; norm_num [mkPoint]
  · rw [hy, hcen]; norm_num [mkPoint]

theorem mem_buildNewSelected {Op : Type} :
    ∀ (ctrs : List (MFEKContour Op)) (idx ci pi : Nat),
      ((ci, pi) ∈ buildNewSelected idx ctrs)
        ↔ ∃ j c, ctrs.get? j = some c ∧ ci = idx + j ∧ pi < c.inner.length := by
  intro ctrs
  induction ctrs with
  | nil => intro idx ci pi; simp [buildNewSelected]
  | cons c0 rest ih =>
    intro idx ci pi
    simp only [buildNewSelected, List.mem_append, List.mem_map, List.mem_range]
    constructor
    · rintro (⟨x, hx, hpair⟩ | h)
      · obtain ⟨h1, h2⟩ := Prod.mk.injEq .. ▸ hpair
        refine ⟨0, c0, rfl, by omega, by omega⟩
      · obtain ⟨j, c, hg, hci, hpi⟩ := (ih (idx + 1) ci pi).1 h
        exact ⟨j + 1, c, by simpa using hg, by omega, hpi⟩
    · rintro ⟨j, c, hg, hci, hpi⟩
      cases j with
      | zero =>
        left
        simp only [List.get?] at hg
        cases hg
        exact ⟨pi, hpi, by simp [hci]⟩
      | succ m =>
        right
        refine (ih (idx + 1) ci pi).2 ⟨m, c, ?_, by omega, hpi⟩
        simpa using hg

/-- Claim C4 (amended): after a successful paste the selection set contains
exactly the pairs (c, p) for every point p of every newly appended contour c,
with contour indices starting at the pre-paste outline length; the pre-paste
selection and live pair are cleared first (selection.rs:192-194), so the new
pairs replace the old selection instead of being merged into it. -/
theorem claim_C4 {Op : Type} (deser : String → Option (ClipLayer Op))
    (t mt d : String) (cb : ClipLayer Op) (position : Option (ℚ × ℚ))
    (st : EditorState Op)
    (h1 : splitOnceTab t = some (mt, d)) (h2 : mt = mimetypeTag)
    (h3 : deser d = some cb) :
    ∀ ci pi, ((ci, pi) ∈ (paste_selection deser (some t) position st).selected
      ↔ ∃ j c, cb.outline.get? j = some c
          ∧ ci = st.outline.length + j ∧ pi < c.inner.length) := by
  subst h2
  intro ci pi
  cases position with
  | none =>
    have hsel : (paste_selection deser (some t) none st).selected
        = buildNewSelected st.outline.length cb.outline := by
      simp [paste_selection, h1, h3]
    rw [hsel]
    exact mem_buildNewSelected cb.outline st.outline.length ci pi
  | some mpos =>
    have hsel : (paste_selection deser (some t) (some mpos) st).selected
        = buildNewSelected st.outline.length
            (cb.outline.map (translateContour
              (mpos.1 - (bboxCenter cb.outline).1,
               mpos.2 - (bboxCenter cb.outline).2))) := by
      simp [paste_selection, h1, h3]
    rw [hsel, mem_buildNewSelected]
    constructor
    · rintro ⟨j, c', hg, hci, hpi⟩
      rw [get?_map'] at hg
      cases hcb : cb.outline.get? j with
      | none => rw [hcb] at hg; exact absurd hg (by simp)
      | some c0 =>
        rw [hcb] at hg
        simp only [Option.map_some'] at hg
        cases hg
        refine ⟨j, c0, hcb, hci, ?_⟩
        simpa [translateContour] using hpi
    · rintro ⟨j, c0, hg, hci, hpi⟩
      refine ⟨j, translateContour
        (mpos.1 - (bboxCenter cb.outline).1,
         mpos.2 - (bboxCenter cb.outline).2) c0, ?_, hci, ?_⟩
      · rw [get?_map', hg]; rfl
      · simpa [translateContour] using hpi

/-- Witness for C4 at a concrete successful paste of one single-point
contour into a one-contour layer. -/
theorem claim_C4_witness :
    ((1, 0) ∈ (paste_selection deser4 (some goodClipText) none st4).selected)
      ↔ ∃ j c, clip4.outline.get? j = some c
          ∧ 1 = st4.outline.length + j ∧ 0 < c.inner.length :=
  claim_C4 deser4 goodClipText mimetypeTag payloadKey clip4 none st4
    (by decide) rfl (by decide) 1 0

/-- Counterexample to C4 as stated: the pair (0, 0) is selected before the
paste, the paste succeeds, and afterwards the selection set is exactly the
new pairs — the previously selected pair (0, 0) is gone, so the new set is
not merged into the pre-paste selection (selection.rs:194 clears the set
before line 234 extends it). -/
theorem claim_C4_cex :
    ((0, 0) ∈ st4.selected)
      ∧ (paste_selection deser4 (some goodClipText) none st4).selected = [(1, 0)]
      ∧ ((0, 0) ∉ (paste_selection deser4 (some goodClipText) none st4).selected) := by
  decide

theorem joinInner_append {Op : Type} :
    ∀ (xs ys : List (MFEKContour Op)),
      joinInner (xs ++ ys) = joinInner xs ++ joinInner ys := by
  intro xs ys
  induction xs with
  | nil => simp [joinInner]
  | cons r t ih => simp [joinInner, ih]

theorem partWalk_join {Op : Type} (opSub : MFEKContour Op → Nat → Nat → Op)
    (keep : Nat → Bool) (contour : MFEKContour Op) :
    ∀ (ps : List Point) (i : Nat) (acc : PartAcc Op),
      joinInner (partWalk opSub keep contour ps i acc).results
          ++ (partWalk opSub keep contour ps i acc).cur
        = joinInner acc.results ++ acc.cur ++ keptFrom keep i ps := by
  intro ps
  induction ps with
  | nil => intro i acc; simp [partWalk, keptFrom]
  | cons p rest ih =>
    intro i acc
    by_cases hk : keep i = true
    · simp only [partWalk, hk, if_true, keptFrom]
      rw [ih]
      simp [List.append_assoc]
    · simp only [partWalk, hk, Bool.false_eq_true, if_false, keptFrom]
      rw [ih]
      simp [joinInner_append, joinInner, List.append_assoc]

theorem walk_join {Op : Type} (opSub : MFEKContour Op → Nat → Nat → Op)
    (keep : Nat → Bool) (contour : MFEKContour Op) :
    joinInner (walkFragments opSub keep contour).1 = keptPoints keep contour.inner := by
  have h := partWalk_join opSub keep contour contour.inner 0
    { results := [], cur := [], beg := 0, deleted := false }
  simp only [joinInner, List.nil_append] at h
  unfold walkFragments keptPoints
  rw [joinInner_append]
  simpa [joinInner] using h

theorem mergeFront_join_perm {Op : Type}
    (opAppend : Op → MFEKContour Op → MFEKContour Op → Op)
    (contour : MFEKContour Op) (rs : List (MFEKContour Op)) :
    (joinInner (mergeFront opAppend contour rs)).Perm (joinInner rs) := by
  by_cases hcond : 1 < rs.length ∧ headNotMove contour = true
  · cases rs with
    | nil => simp at hcond
    | cons r0 rest =>
      have hrne : rest ≠ [] := by
        intro h
        subst h
        simp at hcond
      obtain ⟨l', last, hcat⟩ := (List.eq_nil_or_concat rest).resolve_left hrne
      rw [List.concat_eq_append] at hcat
      subst hcat
      have hsplit : r0 :: (l' ++ [last]) = (r0 :: l') ++ [last] := by simp
      have hlast : (r0 :: (l' ++ [last])).getLast? = some last := by
        rw [hsplit]; exact List.getLast?_concat _
      have hdrop : (r0 :: (l' ++ [last])).dropLast = r0 :: l' := by
        rw [hsplit]; exact List.dropLast_concat
      rw [mergeFront, if_pos hcond]
      simp only [hlast, hdrop, Option.getD_some, List.set]
      simp only [joinInner, joinInner_append, List.append_nil]
      have hp := @List.perm_append_comm Point last.inner (r0.inner ++ joinInner l')
      simpa [List.append_assoc] using hp
  · unfold mergeFront
    rw [if_neg hcond]

theorem finish_join_strip {Op : Type} (d : Bool) :
    ∀ (rs : List (MFEKContour Op)),
      (joinInner (finishResults d rs)).map stripPtype
        = (joinInner rs).map stripPtype := by
  intro rs
  induction rs with
  | nil => simp [finishResults]
  | cons r rest ih =>
    by_cases he : r.inner.isEmpty
    · have hnil : r.inner = [] := by simpa using he
      simp [finishResults, joinInner, he, hnil, ih]
    · cases d with
      | false =>
        simp [finishResults, joinInner, joinInner_append, he, ih]
      | true =>
        simp only [finishResults, he, if_false, if_true, joinInner_append,
          joinInner, List.append_nil, List.map_append, ih]
        congr 1
        cases hr : r.inner with
        | nil => simp [retypeFirstMove]
        | cons p t => simp [retypeFirstMove, stripPtype]

/-- Claim C1 (amended): for every contour and keep predicate, the
concatenation of the fragments produced by the split walk — before the
closed-contour front/back merge and before the first-point Move retype — is
exactly the kept points of the contour in original relative order; the final
emitted fragments carry each kept point (position, handles, name) exactly
once and no removed point, but the merge step moves the last fragment's
points in front of the first fragment's and the retype step may change first
points' types (so order and point types are preserved only up to those two
steps). -/
theorem claim_C1 {Op : Type} (opSub : MFEKContour Op → Nat → Nat → Op)
    (opAppend : Op → MFEKContour Op → MFEKContour Op → Op)
    (keep : Nat → Bool) (contour : MFEKContour Op) :
    joinInner (walkFragments opSub keep contour).1 = keptPoints keep contour.inner
      ∧ ((joinInner (contourPartition opSub opAppend keep contour)).map stripPtype).Perm
          ((keptPoints keep contour.inner).map stripPtype) := by
  refine ⟨walk_join opSub keep contour, ?_⟩
  show ((joinInner (finishResults (walkFragments opSub keep contour).2
      (mergeFront opAppend contour (walkFragments opSub keep contour).1))).map stripPtype).Perm _
  rw [finish_join_strip]
  have hpm := (mergeFront_join_perm opAppend contour
    (walkFragments opSub keep contour).1).map stripPtype
  rw [walk_join] at hpm
  exact hpm

/-- Counterexample to C1 as stated: deleting the middle point of the closed
contour [(0,0), (1,0), (2,0)] emits the single merged fragment
[(2,0) retyped to Move, (0,0)] — the kept points are [(0,0), (2,0)], so the
emitted points are neither exactly the kept points (the first point's type
changed to Move) nor in their original relative order ((2,0) now precedes
(0,0)). -/
theorem claim_C1_cex :
    joinInner (delete_selection uSub uApp cexState).outline
        = [mkPoint 2 0 PointType.Move, cexP0]
      ∧ keptPoints (fun pi => !pointSelected cexState 0 pi) cexContour.inner
        = [cexP0, cexP2]
      ∧ joinInner (delete_selection uSub uApp cexState).outline
          ≠ keptPoints (fun pi => !pointSelected cexState 0 pi) cexContour.inner := by
  decide

end Glif
